import Mathlib

/-!
Verification of the scraper pipeline (biblion84/aaron) against its
natural-language specification.  The development shallowly embeds the
current program iteration (the variant with the admission semaphore,
the retry channel and in-place identity rerolling) into Lean:

* base-36 identifier encoding/decoding, modelling Go's
  strconv.FormatInt / strconv.ParseInt with base 36 and bitSize 64;
* the per-worker failure policy of scrapeWorker
  (consecutiveNonValidResponse counter and identity rerolls);
* a small-step operational model of the concurrent pipeline: the
  feeder goroutine of main (admission semaphore, retry-first branch,
  fresh-offset counter), the ten workers, the skipped-file sink, and
  the shutdown flag, all communicating through FIFO channel buffers;
* the two sink loops writeResultsToFile / writeSkippedToFile as pure
  functions of the received stream and of the per-write outcomes;
* SetRandomIdentity with Go's rand.Intn partiality (rand.Intn panics
  on a non-positive bound).
-/

/-! ### Base-36 encoding (Go strconv.FormatInt, base 36) -/

/-- Digit characters used by Go's strconv formatting for base 36:
0-9 then lowercase a-z. -/
def digitChar (d : Nat) : Char :=
  if d < 10 then Char.ofNat (48 + d) else Char.ofNat (87 + d)

/-- Fuel-driven digit loop of Go's strconv formatBits: repeatedly emit
the least-significant base-36 digit in front of the accumulator.  The
fuel is only a termination device; fmtNat supplies enough of it. -/
def fmtCore : Nat → Nat → List Char → List Char
  | 0, _, acc => acc
  | fuel + 1, n, acc =>
    if n < 36 then digitChar n :: acc
    else fmtCore fuel (n / 36) (digitChar (n % 36) :: acc)

/-- Base-36 digit string (as a character list) of a natural number,
exactly as produced by Go's strconv.FormatInt for non-negative input. -/
def fmtNat (n : Nat) : List Char := fmtCore (n + 1) n []

/-- Models Go's strconv.FormatInt(n, 36): optional leading minus sign,
then the base-36 digits of the absolute value. -/
def formatInt36 (n : Int) : String :=
  if n < 0 then String.mk ('-' :: fmtNat (-n).toNat) else String.mk (fmtNat n.toNat)

/-- Value of one digit character, as accepted by Go's strconv.ParseUint:
0-9, a-z, A-Z (case-insensitive letters). -/
def digitVal (c : Char) : Option Nat :=
  if 48 ≤ c.toNat ∧ c.toNat ≤ 57 then some (c.toNat - 48)
  else if 97 ≤ c.toNat ∧ c.toNat ≤ 122 then some (c.toNat - 87)
  else if 65 ≤ c.toNat ∧ c.toNat ≤ 90 then some (c.toNat - 55)
  else none

/-- Digit-accumulation loop of Go's strconv.ParseUint with base 36 and
bitSize 64: fails on a non-digit character or when the accumulated value
would exceed the 64-bit range (Go's cutoff/overflow checks are
extensionally this bound on the abstract value). -/
def parseUintCore : List Char → Nat → Option Nat
  | [], acc => some acc
  | c :: cs, acc =>
    match digitVal c with
    | none => none
    | some d => if acc * 36 + d < 2 ^ 64 then parseUintCore cs (acc * 36 + d) else none

/-- Models Go's strconv.ParseInt(s, 36, 64): optional sign, base-36
digits, and the signed 64-bit range check (a positive value must be
below 2^63, a negative magnitude at most 2^63). -/
def parseInt36 (s : String) : Option Int :=
  match s.data with
  | [] => none
  | c :: rest =>
    if c = '-' then
      match rest with
      | [] => none
      | _ :: _ =>
        match parseUintCore rest 0 with
        | none => none
        | some un => if un ≤ 2 ^ 63 then some (-(un : Int)) else none
    else if c = '+' then
      match rest with
      | [] => none
      | _ :: _ =>
        match parseUintCore rest 0 with
        | none => none
        | some un => if un < 2 ^ 63 then some (un : Int) else none
    else
      match parseUintCore (c :: rest) 0 with
      | none => none
      | some un => if un < 2 ^ 63 then some (un : Int) else none

theorem fmtCore_acc (n : Nat) : ∀ fuel acc, n < fuel → fmtCore fuel n acc = fmtNat n ++ acc := by
  induction n using Nat.strongRecOn with
  | ind n ih =>
    intro fuel acc h
    match fuel with
    | 0 => omega
    | f + 1 =>
      by_cases h36 : n < 36
      · simp [fmtCore, fmtNat, h36]
      · have hpos : 0 < n := by omega
        have hdiv : n / 36 < n := Nat.div_lt_self hpos (by omega)
        simp only [fmtCore, if_neg h36, fmtNat]
        rw [ih (n / 36) hdiv f (digitChar (n % 36) :: acc) (by omega),
          ih (n / 36) hdiv n (digitChar (n % 36) :: []) (by omega)]
        simp

theorem fmtNat_lt {n : Nat} (h : n < 36) : fmtNat n = [digitChar n] := by
  simp [fmtNat, fmtCore, h]

theorem fmtNat_ge {n : Nat} (h : 36 ≤ n) : fmtNat n = fmtNat (n / 36) ++ [digitChar (n % 36)] := by
  have hpos : 0 < n := by omega
  have hdiv : n / 36 < n := Nat.div_lt_self hpos (by omega)
  simp only [fmtNat, fmtCore, if_neg (by omega : ¬ n < 36)]
  exact fmtCore_acc (n / 36) n [digitChar (n % 36)] hdiv

theorem digitVal_digitChar : ∀ d, d < 36 → digitVal (digitChar d) = some d := by decide

theorem parseUintCore_append (xs : List Char) :
    ∀ ys acc, parseUintCore (xs ++ ys) acc =
      match parseUintCore xs acc with
      | some a => parseUintCore ys a
      | none => none := by
  induction xs with
  | nil => intro ys acc; rfl
  | cons c cs ih =>
    intro ys acc
    simp only [List.cons_append, parseUintCore]
    cases digitVal c with
    | none => rfl
    | some d =>
      simp only
      split
      · exact ih ys (acc * 36 + d)
      · rfl

theorem parse_fmtNat (n : Nat) : ∀ acc, acc * 36 ^ (fmtNat n).length + n < 2 ^ 64 →
    parseUintCore (fmtNat n) acc = some (acc * 36 ^ (fmtNat n).length + n) := by
  induction n using Nat.strongRecOn with
  | ind n ih =>
    intro acc hbound
    by_cases h36 : n < 36
    · rw [fmtNat_lt h36] at hbound ⊢
      simp only [List.length_cons, List.length_nil, Nat.zero_add, pow_one] at hbound ⊢
      simp only [parseUintCore, digitVal_digitChar n h36, if_pos hbound]
    · have hge : 36 ≤ n := by omega
      have hpos : 0 < n := by omega
      have hdiv : n / 36 < n := Nat.div_lt_self hpos (by omega)
      rw [fmtNat_ge hge] at hbound ⊢
      set L := (fmtNat (n / 36)).length with hL
      have hlen : (fmtNat (n / 36) ++ [digitChar (n % 36)]).length = L + 1 := by
        simp [hL]
      rw [hlen] at hbound ⊢
      have hmod : 36 * (n / 36) + n % 36 = n := Nat.div_add_mod n 36
      have hpow : 36 ^ (L + 1) = 36 ^ L * 36 := by ring
      have hval : (acc * 36 ^ L + n / 36) * 36 + n % 36 = acc * 36 ^ (L + 1) + n := by
        rw [hpow]; ring_nf; omega
      have hsub : acc * 36 ^ L + n / 36 < 2 ^ 64 := by
        have h1 : (acc * 36 ^ L + n / 36) * 36 + n % 36 < 2 ^ 64 := by rw [hval]; exact hbound
        set X := acc * 36 ^ L + n / 36 with hXdef
        omega
      rw [parseUintCore_append, ih (n / 36) hdiv acc hsub]
      simp only [parseUintCore, digitVal_digitChar (n % 36) (Nat.mod_lt n (by omega))]
      rw [hval]
      simp only [if_pos hbound, parseUintCore]

theorem fmtNat_head (n : Nat) : ∃ d rest, d < 36 ∧ fmtNat n = digitChar d :: rest := by
  induction n using Nat.strongRecOn with
  | ind n ih =>
    by_cases h36 : n < 36
    · exact ⟨n, [], h36, fmtNat_lt h36⟩
    · have hge : 36 ≤ n := by omega
      have hdiv : n / 36 < n := Nat.div_lt_self (by omega) (by omega)
      obtain ⟨d, rest, hd, hrest⟩ := ih (n / 36) hdiv
      exact ⟨d, rest ++ [digitChar (n % 36)], hd, by rw [fmtNat_ge hge, hrest]; rfl⟩

/-- Claim C8: decoding the base-36 encoding of any non-negative
64-bit-representable integer yields the integer back; decode_base36 is
the parsing applied to the starting identifier (strconv.ParseInt with
base 36 and bitSize 64) and encode_base36 the identifier formatting
(strconv.FormatInt with base 36). -/
theorem base36_roundtrip (n : Nat) (h : n < 2 ^ 63) :
    parseInt36 (formatInt36 (n : Int)) = some (n : Int) := by
  have hneg : ¬ ((n : Int) < 0) := by omega
  have hfmt : formatInt36 (n : Int) = String.mk (fmtNat n) := by
    simp [formatInt36, hneg]
  rw [hfmt]
  obtain ⟨d, rest, hd, hrest⟩ := fmtNat_head n
  have hdv : digitVal (digitChar d) = some d := digitVal_digitChar d hd
  have hnotminus : digitChar d ≠ '-' := by
    intro hc; rw [hc] at hdv; exact Option.noConfusion ((by decide : digitVal '-' = none) ▸ hdv)
  have hnotplus : digitChar d ≠ '+' := by
    intro hc; rw [hc] at hdv; exact Option.noConfusion ((by decide : digitVal '+' = none) ▸ hdv)
  have hparse : parseUintCore (fmtNat n) 0 = some n := by
    have hb : 0 * 36 ^ (fmtNat n).length + n < 2 ^ 64 := by
      simp only [Nat.zero_mul, Nat.zero_add]
      calc n < 2 ^ 63 := h
        _ < 2 ^ 64 := by norm_num
    have := parse_fmtNat n 0 hb
    simpa using this
  simp only [parseInt36, hrest]
  rw [← hrest, hparse]
  have h2 : n < 9223372036854775808 := by omega
  simp [hnotminus, hnotplus, h2]

/-- Witness for base36_roundtrip at a concrete identifier. -/
theorem base36_roundtrip_witness :
    12345 < 2 ^ 63 ∧ parseInt36 (formatInt36 (12345 : Int)) = some (12345 : Int) :=
  ⟨by norm_num, base36_roundtrip 12345 (by norm_num)⟩

/-! ### Worker failure policy (scrapeWorker of the current iteration) -/

/-- Outcome of one DoRequest call, as classified by the current
iteration's scrapeWorker.  DoRequest maps every non-200 status
(including 403 access-forbidden and 429 rate-limited; the status code is
kept only for documentation) to the sentinel error ERR_NON_200_RESPONSE;
transport errors and invalid JSON bodies yield other errors; a 200 with
a valid JSON body is a success. -/
inductive Outcome where
  | ok
  | non200 (code : Nat)
  | transportErr
  | invalidBody
deriving DecidableEq, Repr

/-- One iteration of scrapeWorker's error handling, acting on the
consecutiveNonValidResponse counter.  Returns the new counter and
whether SetRandomIdentity was called (an identity reroll):
a non-200 error with counter below 1 increments the counter without a
reroll; every other error rerolls and leaves the counter unchanged;
a success resets the counter to 0. -/
def policyStep (c : Nat) (o : Outcome) : Nat × Bool :=
  match o with
  | .ok => (0, false)
  | .non200 _ => if c < 1 then (c + 1, false) else (c, true)
  | .transportErr => (c, true)
  | .invalidBody => (c, true)

/-- Runs the worker failure policy over a sequence of request outcomes,
returning the final counter and the per-attempt reroll flags. -/
def runPolicy : Nat → List Outcome → Nat × List Bool
  | c, [] => (c, [])
  | c, o :: os =>
    let r := policyStep c o
    let rest := runPolicy r.1 os
    (rest.1, r.2 :: rest.2)

/-- Modelled from the spec: the failure policy exactly as the claim
states it, for comparison against the code's policyStep.  A rate-limited
response increments the counter; when the counter reaches the threshold
of 2 the Worker rerolls and resets the counter to 0; with fewer than 2
consecutive rate-limited responses it keeps the same Identity.  (The
remaining branches follow spec section 4.2: transport errors reroll and
reset, invalid bodies reset without a reroll, successes reset.) -/
def claimPolicyStep (c : Nat) (o : Outcome) : Nat × Bool :=
  match o with
  | .ok => (0, false)
  | .non200 _ => if c + 1 ≥ 2 then (0, true) else (c + 1, false)
  | .transportErr => (0, true)
  | .invalidBody => (0, false)

/-- Runs the claim's version of the failure policy over a sequence of
request outcomes. -/
def runClaimPolicy : Nat → List Outcome → Nat × List Bool
  | c, [] => (c, [])
  | c, o :: os =>
    let r := claimPolicyStep c o
    let rest := runClaimPolicy r.1 os
    (rest.1, r.2 :: rest.2)

/-! ### Sinks: writeResultsToFile / writeSkippedToFile -/

/-- Comma-join of a list of strings: elements in order, separated by
commas, the first unprefixed. -/
def joinComma : List String → String
  | [] => ""
  | [b] => b
  | b :: bs => b ++ "," ++ joinComma bs

/-- Body of writeResultsToFile's receive loop: the first element is
written without a comma; every later element is preceded by one. -/
def resultsBody : Bool → List String → String
  | _, [] => ""
  | first, b :: bs => (if first then "" else ",") ++ b ++ resultsBody false bs

/-- Content of the Results output file after writeResultsToFile has
drained its input stream and closed the array: one opening bracket, the
received payloads in arrival order comma-separated, one closing
bracket. -/
def writeResultsToFile (bodies : List String) : String :=
  "[" ++ resultsBody true bodies ++ "]"

/-- Fragment of JSON values sufficient to express that the Results file
is a structured (JSON) array: null, booleans, integer numbers, strings
(rendered naively, escaping is irrelevant here) and nested arrays. -/
inductive Json where
  | null
  | jbool (b : Bool)
  | jnum (n : Int)
  | jstr (s : String)
  | jarr (xs : List Json)

/-- Serialization of a JSON value; an array renders as the bracketed
comma-join of its rendered elements. -/
def render : Json → String
  | .null => "null"
  | .jbool true => "true"
  | .jbool false => "false"
  | .jnum n => toString n
  | .jstr s => "\x22" ++ s ++ "\x22"
  | .jarr xs => "[" ++ joinComma (xs.attach.map (fun x => render x.1)) ++ "]"
decreasing_by
  have hm := List.sizeOf_lt_of_mem x.2
  simp only [Json.jarr.sizeOf_spec]
  omega

theorem render_arr (xs : List Json) :
    render (.jarr xs) = "[" ++ joinComma (xs.map render) ++ "]" := by
  rw [render]
  congr 2
  rw [List.attach_map_coe]

/-! ### Sink error handling: per-write outcomes -/

/-- Result of running a sink loop against an injected sequence of
per-write outcomes: whether the process aborted (log.Fatalf) and the
file content accumulated so far. -/
structure SinkRun where
  aborted : Bool
  content : String
deriving DecidableEq, Repr

/-- Pops the next injected write outcome; once the injected list is
exhausted every further write succeeds. -/
def takeOut : List Bool → Bool × List Bool
  | [] => (true, [])
  | o :: r => (o, r)

/-- Record loop of writeSkippedToFile: for each received offset it calls
WriteString(itoa(id) + newline) and discards the returned error, so a
failed write leaves no trace (the record is dropped) and the loop never
aborts. -/
def skippedRecords : List Int → List Bool → String → String
  | [], _, content => content
  | id :: ids, outs, content =>
    let r := takeOut outs
    skippedRecords ids r.2 (if r.1 then content ++ toString id ++ "\n" else content)

/-- Models writeSkippedToFile after the output file was created: the
loop body has no error branch, hence the run never aborts. -/
def writeSkippedToFile (ids : List Int) (outs : List Bool) : SinkRun :=
  ⟨false, skippedRecords ids outs ""⟩

/-- Comma-interleaving of writeResultsToFile's per-element writes: the
first element is a single write, every later element is a comma write
followed by the body write. -/
def resultsOpsBody : Bool → List String → List String
  | _, [] => []
  | first, b :: bs => (if first then [b] else [",", b]) ++ resultsOpsBody false bs

/-- The exact sequence of file writes performed by writeResultsToFile:
the opening bracket, the comma-interleaved payloads, the closing
bracket. -/
def resultsOps (bodies : List String) : List String :=
  "[" :: resultsOpsBody true bodies ++ ["]"]

/-- Executes a sequence of checked writes: each write's error is tested
and log.Fatalf aborts the process on the first failure, leaving the
partial content. -/
def execOps : List String → List Bool → String → SinkRun
  | [], _, content => ⟨false, content⟩
  | op :: ops, outs, content =>
    let r := takeOut outs
    if r.1 then execOps ops r.2 (content ++ op) else ⟨true, content⟩

/-- Models writeResultsToFile after the output file was created: every
write is checked and a failing write aborts. -/
def writeResultsToFileChecked (bodies : List String) (outs : List Bool) : SinkRun :=
  execOps (resultsOps bodies) outs ""

/-! ### Identity selection (SetRandomIdentity) -/

/-- Models Go's rand.Intn: returns a pseudo-random index below the
bound, and panics (modelled as none) when the bound is not positive. -/
def randIntn (n : Nat) (r : Nat) : Option Nat :=
  if n = 0 then none else some (r % n)

/-- A worker identity: proxy route and user-agent signature (the bound
http.Client carries no further observable state here). -/
structure Identity where
  proxy : String
  userAgent : String
deriving DecidableEq, Repr

/-- Models SetRandomIdentity of the current iteration: draws
proxies[rand.Intn(len(proxies))] and userAgents[rand.Intn(len(userAgents))].
The draw faults (none) whenever either pool is empty, because rand.Intn
panics on bound 0. -/
def SetRandomIdentity (proxies userAgents : List String) (r1 r2 : Nat) : Option Identity :=
  match randIntn proxies.length r1 with
  | none => none
  | some pi =>
    match randIntn userAgents.length r2 with
    | none => none
    | some ui => some ⟨proxies.getD pi "", userAgents.getD ui ""⟩

/-! ### Concurrent pipeline of the current iteration's main

The feeder goroutine, the WORKERS scrapeWorker goroutines, the
skipped-file sink and the shutdown flag are modelled as a small-step
transition system.  Channels are FIFO buffers with the capacities used
in main: tasks (cap WORKERS), skipped (cap WORKERS*2) and the inflight
admission semaphore (a buffered channel of cap WORKERS, counted).  The
unbuffered results channel is modelled by an atomic rendezvous with the
always-ready results sink.  Ghost fields record issued offsets,
acquire/release counts, failure emissions and file contents; they do
not influence any guard. -/

/-- Batch width: at most 100 posts per bulk request. -/
def STEP_SIZE : Int := 100

/-- Size of the worker pool and of the admission semaphore. -/
def WORKERS : Nat := 10

/-- Two's-complement reduction to the signed 64-bit range, modelling
Go's wrapping int64 arithmetic: the feeder's counter and the offsets it
derives are int64 values, so additions wrap at the 64-bit boundary. -/
def wrap64 (n : Int) : Int := (n + 2 ^ 63) % 2 ^ 64 - 2 ^ 63

theorem wrap64_add_wrap_left (a x : Int) : wrap64 (wrap64 a + x) = wrap64 (a + x) := by
  simp only [wrap64]; omega

theorem wrap64_add_wrap_right (a x : Int) : wrap64 (a + wrap64 x) = wrap64 (a + x) := by
  simp only [wrap64]; omega

/-- Control state of one scrapeWorker: waiting on the tasks channel,
holding an offset with the request outcome still undetermined, the
failure path (send on skipped, then receive from inflight), the success
path (receive from inflight, then send on results), or exited. -/
inductive WSt where
  | idle
  | running (t : Int)
  | failSend (t : Int)
  | failRelease
  | succRelease (t : Int)
  | succEmit (t : Int)
  | done
deriving DecidableEq, Repr

/-- Control state of the feeder goroutine in main: at the top of its
loop, holding a freshly acquired admission slot, committed to receiving
from the skipped channel (the branch taken after observing a non-empty
buffer), holding the offset about to be sent on tasks (tagged with
whether it is fresh), or returned after closing tasks. -/
inductive FSt where
  | top
  | acquired
  | commitRecv
  | hold (t : Int) (fresh : Bool)
  | closed
deriving DecidableEq, Repr

/-- Global state of the pipeline.  Fields up to ws mirror program
state; the remaining fields are ghost observers. -/
structure St where
  startNum : Int
  shutdown : Bool
  fs : FSt
  i : Int
  tasks : List Int
  tasksClosed : Bool
  skipped : List Int
  inflight : Nat
  ws : List WSt
  acquiredCount : Nat
  releasedCount : Nat
  issuedFresh : List Int
  issuedRedeliv : List Int
  failEmits : List Int
  fileSkipped : List Int
  results : List Int
  obsHead : Option Int
  checkIssue : List (Int × Int)
deriving DecidableEq, Repr

/-- Initial state: counters at zero, every channel empty, every worker
waiting, the feeder at the top of its loop. -/
def initSt (startNum : Int) : St :=
  ⟨startNum, false, .top, 0, [], false, [], 0, List.replicate WORKERS .idle,
    0, 0, [], [], [], [], [], none, []⟩

/-- Scheduler actions: one per atomic channel operation or local
decision of the concurrent components. -/
inductive Act where
  | setShutdown
  | feederClose
  | feederAcquire
  | feederObserve
  | feederRecv
  | feederFresh
  | feederIssue
  | workerTake (w : Nat)
  | workerExit (w : Nat)
  | workerDecideFail (w : Nat)
  | workerDecideSucc (w : Nat)
  | workerFailSend (w : Nat)
  | workerFailRelease (w : Nat)
  | workerSuccRelease (w : Nat)
  | workerEmitResult (w : Nat)
  | sinkSkipPop
deriving DecidableEq, Repr

/-- One atomic step of the pipeline.  Guards mirror Go channel
semantics: a send on a buffered channel requires free capacity, a
receive requires a queued element, receiving from the inflight
semaphore requires an outstanding token, and the feeder checks the
shutdown flag at the top of each loop iteration.  The feeder's fresh
branch performs the two int64 additions of the source
(the counter increment and startNum plus counter) in wrapping
two's-complement arithmetic via wrap64. -/
def pstep (a : Act) (s : St) : Option St :=
  match a with
  | .setShutdown => some { s with shutdown := true }
  | .feederClose =>
    match s.fs with
    | .top => if s.shutdown then some { s with fs := .closed, tasksClosed := true } else none
    | _ => none
  | .feederAcquire =>
    match s.fs with
    | .top =>
      if s.shutdown = false ∧ s.inflight < WORKERS then
        some { s with inflight := s.inflight + 1, acquiredCount := s.acquiredCount + 1,
                      fs := .acquired }
      else none
    | _ => none
  | .feederObserve =>
    match s.fs, s.skipped with
    | .acquired, h :: _ => some { s with fs := .commitRecv, obsHead := some h }
    | _, _ => none
  | .feederRecv =>
    match s.fs, s.skipped with
    | .commitRecv, h :: rest => some { s with skipped := rest, fs := .hold h false }
    | _, _ => none
  | .feederFresh =>
    match s.fs, s.skipped with
    | .acquired, [] =>
      some { s with i := wrap64 (s.i + STEP_SIZE),
                    fs := .hold (wrap64 (s.startNum + wrap64 (s.i + STEP_SIZE))) true }
    | _, _ => none
  | .feederIssue =>
    match s.fs with
    | .hold t fr =>
      if s.tasks.length < WORKERS then
        some { s with tasks := s.tasks ++ [t], fs := .top,
                      issuedFresh := if fr then s.issuedFresh ++ [t] else s.issuedFresh,
                      issuedRedeliv := if fr then s.issuedRedeliv else s.issuedRedeliv ++ [t],
                      checkIssue := if fr then s.checkIssue
                                    else s.checkIssue ++ [(s.obsHead.getD 0, t)] }
      else none
    | _ => none
  | .workerTake w =>
    match s.ws[w]?, s.tasks with
    | some .idle, t :: rest => some { s with tasks := rest, ws := s.ws.set w (.running t) }
    | _, _ => none
  | .workerExit w =>
    match s.ws[w]? with
    | some .idle =>
      if s.tasksClosed = true ∧ s.tasks = [] then some { s with ws := s.ws.set w .done }
      else none
    | _ => none
  | .workerDecideFail w =>
    match s.ws[w]? with
    | some (.running t) => some { s with ws := s.ws.set w (.failSend t) }
    | _ => none
  | .workerDecideSucc w =>
    match s.ws[w]? with
    | some (.running t) => some { s with ws := s.ws.set w (.succRelease t) }
    | _ => none
  | .workerFailSend w =>
    match s.ws[w]? with
    | some (.failSend t) =>
      if s.skipped.length < WORKERS * 2 then
        some { s with skipped := s.skipped ++ [t], failEmits := s.failEmits ++ [t],
                      ws := s.ws.set w .failRelease }
      else none
    | _ => none
  | .workerFailRelease w =>
    match s.ws[w]? with
    | some .failRelease =>
      if s.inflight > 0 then
        some { s with inflight := s.inflight - 1, releasedCount := s.releasedCount + 1,
                      ws := s.ws.set w .idle }
      else none
    | _ => none
  | .workerSuccRelease w =>
    match s.ws[w]? with
    | some (.succRelease t) =>
      if s.inflight > 0 then
        some { s with inflight := s.inflight - 1, releasedCount := s.releasedCount + 1,
                      ws := s.ws.set w (.succEmit t) }
      else none
    | _ => none
  | .workerEmitResult w =>
    match s.ws[w]? with
    | some (.succEmit t) => some { s with results := s.results ++ [t], ws := s.ws.set w .idle }
    | _ => none
  | .sinkSkipPop =>
    match s.skipped with
    | h :: rest => some { s with skipped := rest, fileSkipped := s.fileSkipped ++ [h] }
    | [] => none

/-- Runs a finite schedule of actions from a state; fails if any action
is not enabled. -/
def prun : List Act → St → Option St
  | [], s => some s
  | a :: tr, s =>
    match pstep a s with
    | none => none
    | some s1 => prun tr s1

/-- Number of offsets issued on the tasks channel so far. -/
def issuedLen (s : St) : Nat := s.issuedFresh.length + s.issuedRedeliv.length

/-- Whether the feeder currently holds an acquired-but-not-yet-issued
admission slot. -/
def holdBit (s : St) : Nat :=
  match s.fs with
  | .acquired => 1
  | .commitRecv => 1
  | .hold _ _ => 1
  | _ => 0

/-- Inductive invariant behind the admission bound: the semaphore count
is the difference between acquires and releases, it never exceeds
WORKERS, and every acquire is accounted for by an issued offset or by
the slot the feeder currently holds. -/
def Inv2 (s : St) : Prop :=
  s.acquiredCount = s.releasedCount + s.inflight ∧
  s.inflight ≤ WORKERS ∧
  s.acquiredCount = issuedLen s + holdBit s

theorem prun_inv (P : St → Prop) (hstep : ∀ a s s1, pstep a s = some s1 → P s → P s1) :
    ∀ tr s s1, prun tr s = some s1 → P s → P s1 := by
  intro tr
  induction tr with
  | nil => intro s s1 h hP; simp only [prun, Option.some.injEq] at h; exact h ▸ hP
  | cons a tr ih =>
    intro s s1 h hP
    simp only [prun] at h
    cases hstep1 : pstep a s with
    | none => rw [hstep1] at h; exact absurd h (by simp)
    | some smid => rw [hstep1] at h; exact ih smid s1 h (hstep a s smid hstep1 hP)

theorem inv2_pstep : ∀ a s s1, pstep a s = some s1 → Inv2 s → Inv2 s1 := by
  intro a s s1 h hP
  obtain ⟨h1, h2, h3⟩ := hP
  cases a with
  | setShutdown =>
    simp only [pstep, Option.some.injEq] at h
    subst h; exact ⟨h1, h2, h3⟩
  | feederClose =>
    cases hfs : s.fs <;> simp [pstep, hfs] at h
    obtain ⟨hg, h⟩ := h
    subst h
    refine ⟨h1, h2, ?_⟩
    simp only [issuedLen, holdBit, hfs] at h3 ⊢
    omega
  | feederAcquire =>
    cases hfs : s.fs <;> simp [pstep, hfs] at h
    obtain ⟨⟨hg1, hg2⟩, h⟩ := h
    subst h
    refine ⟨?_, ?_, ?_⟩ <;> simp only [issuedLen, holdBit, hfs] at h1 h2 h3 ⊢ <;> omega
  | feederObserve =>
    cases hfs : s.fs <;> cases hsk : s.skipped <;> simp [pstep, hfs, hsk] at h
    subst h
    refine ⟨h1, h2, ?_⟩
    simp only [issuedLen, holdBit, hfs] at h3 ⊢
    omega
  | feederRecv =>
    cases hfs : s.fs <;> cases hsk : s.skipped <;> simp [pstep, hfs, hsk] at h
    subst h
    refine ⟨h1, h2, ?_⟩
    simp only [issuedLen, holdBit, hfs] at h3 ⊢
    omega
  | feederFresh =>
    cases hfs : s.fs <;> cases hsk : s.skipped <;> simp [pstep, hfs, hsk] at h
    subst h
    refine ⟨h1, h2, ?_⟩
    simp only [issuedLen, holdBit, hfs] at h3 ⊢
    omega
  | feederIssue =>
    cases hfs : s.fs <;> simp [pstep, hfs] at h
    case hold t fr =>
      obtain ⟨hg, h⟩ := h
      subst h
      refine ⟨h1, h2, ?_⟩
      cases fr <;>
        simp [issuedLen, holdBit, hfs] at h3 ⊢ <;>
        omega
  | workerTake w =>
    cases hw : s.ws[w]? with
    | none => simp [pstep, hw] at h
    | some x =>
      cases x <;> cases hts : s.tasks <;> simp [pstep, hw, hts] at h
      subst h; exact ⟨h1, h2, h3⟩
  | workerExit w =>
    cases hw : s.ws[w]? with
    | none => simp [pstep, hw] at h
    | some x =>
      cases x <;> simp [pstep, hw] at h
      obtain ⟨⟨hg1, hg2⟩, h⟩ := h
      subst h; exact ⟨h1, h2, h3⟩
  | workerDecideFail w =>
    cases hw : s.ws[w]? with
    | none => simp [pstep, hw] at h
    | some x =>
      cases x <;> simp [pstep, hw] at h
      subst h; exact ⟨h1, h2, h3⟩
  | workerDecideSucc w =>
    cases hw : s.ws[w]? with
    | none => simp [pstep, hw] at h
    | some x =>
      cases x <;> simp [pstep, hw] at h
      subst h; exact ⟨h1, h2, h3⟩
  | workerFailSend w =>
    cases hw : s.ws[w]? with
    | none => simp [pstep, hw] at h
    | some x =>
      cases x <;> simp [pstep, hw] at h
      obtain ⟨hg, h⟩ := h
      subst h; exact ⟨h1, h2, h3⟩
  | workerFailRelease w =>
    cases hw : s.ws[w]? with
    | none => simp [pstep, hw] at h
    | some x =>
      cases x <;> simp [pstep, hw] at h
      obtain ⟨hg, h⟩ := h
      subst h
      refine ⟨?_, ?_, ?_⟩ <;> simp only [issuedLen, holdBit] at h1 h2 h3 ⊢ <;> omega
  | workerSuccRelease w =>
    cases hw : s.ws[w]? with
    | none => simp [pstep, hw] at h
    | some x =>
      cases x <;> simp [pstep, hw] at h
      obtain ⟨hg, h⟩ := h
      subst h
      refine ⟨?_, ?_, ?_⟩ <;> simp only [issuedLen, holdBit] at h1 h2 h3 ⊢ <;> omega
  | workerEmitResult w =>
    cases hw : s.ws[w]? with
    | none => simp [pstep, hw] at h
    | some x =>
      cases x <;> simp [pstep, hw] at h
      subst h; exact ⟨h1, h2, h3⟩
  | sinkSkipPop =>
    cases hsk : s.skipped <;> simp [pstep, hsk] at h
    subst h; exact ⟨h1, h2, h3⟩

/-- Whether the feeder holds a chosen-but-not-yet-issued fresh offset. -/
def freshBit (s : St) : Nat :=
  match s.fs with
  | .hold _ true => 1
  | _ => 0

/-- The fresh offsets the feeder produces, in order: the k-th issued
fresh offset (0-based) is base + (k+1)*STEP_SIZE, because the feeder
increments its counter by STEP_SIZE before adding it to the base. -/
def freshList (b : Int) : Nat → List Int
  | 0 => []
  | m + 1 => freshList b m ++ [wrap64 (b + STEP_SIZE * ((m : Int) + 1))]

theorem freshList_succ (b : Int) (m : Nat) :
    freshList b (m + 1) = freshList b m ++ [wrap64 (b + STEP_SIZE * ((m : Int) + 1))] := rfl

theorem freshList_length (b : Int) : ∀ m, (freshList b m).length = m := by
  intro m
  induction m with
  | zero => rfl
  | succ m ih => simp [freshList, ih]

/-- Inductive invariant behind the fresh-offset formula: the feeder
counter always equals STEP_SIZE times the number of fresh offsets
chosen so far, a held fresh offset equals base plus the counter, and
the issued fresh offsets are exactly the freshList prefix. -/
def Inv5 (b : Int) (s : St) : Prop :=
  s.startNum = b ∧
  s.i = wrap64 (STEP_SIZE * ((s.issuedFresh.length + freshBit s : Nat) : Int)) ∧
  (∀ t, s.fs = FSt.hold t true → t = wrap64 (s.startNum + s.i)) ∧
  s.issuedFresh = freshList b s.issuedFresh.length

theorem inv5_pstep (b : Int) : ∀ a s s1, pstep a s = some s1 → Inv5 b s → Inv5 b s1 := by
  intro a s s1 h hP
  obtain ⟨hb, h2i, h3h, h4f⟩ := hP
  cases a with
  | setShutdown =>
    simp only [pstep, Option.some.injEq] at h
    subst h; exact ⟨hb, h2i, h3h, h4f⟩
  | feederClose =>
    cases hfs : s.fs <;> simp [pstep, hfs] at h
    obtain ⟨hg, h⟩ := h
    subst h
    refine ⟨hb, ?_, ?_, h4f⟩
    · simp only [freshBit, hfs] at h2i ⊢; exact h2i
    · intro t ht; exact absurd ht (by simp)
  | feederAcquire =>
    cases hfs : s.fs <;> simp [pstep, hfs] at h
    obtain ⟨⟨hg1, hg2⟩, h⟩ := h
    subst h
    refine ⟨hb, ?_, ?_, h4f⟩
    · simp only [freshBit, hfs] at h2i ⊢; exact h2i
    · intro t ht; exact absurd ht (by simp)
  | feederObserve =>
    cases hfs : s.fs <;> cases hsk : s.skipped <;> simp [pstep, hfs, hsk] at h
    subst h
    refine ⟨hb, ?_, ?_, h4f⟩
    · simp only [freshBit, hfs] at h2i ⊢; exact h2i
    · intro t ht; exact absurd ht (by simp)
  | feederRecv =>
    cases hfs : s.fs <;> cases hsk : s.skipped <;> simp [pstep, hfs, hsk] at h
    subst h
    refine ⟨hb, ?_, ?_, h4f⟩
    · simp only [freshBit, hfs] at h2i ⊢; exact h2i
    · intro t ht
      simp only [FSt.hold.injEq] at ht
      exact absurd ht.2 (by simp)
  | feederFresh =>
    cases hfs : s.fs <;> cases hsk : s.skipped <;> simp [pstep, hfs, hsk] at h
    subst h
    refine ⟨hb, ?_, ?_, h4f⟩
    · simp only [freshBit, hfs, STEP_SIZE, wrap64] at h2i ⊢
      push_cast at h2i ⊢
      omega
    · intro t ht
      simp only [FSt.hold.injEq] at ht
      obtain ⟨ht1, _⟩ := ht
      subst ht1
      rfl
  | feederIssue =>
    cases hfs : s.fs <;> simp [pstep, hfs] at h
    case hold t fr =>
      obtain ⟨hg, h⟩ := h
      subst h
      cases fr with
      | false =>
        refine ⟨hb, ?_, ?_, ?_⟩
        · simp only [freshBit, hfs] at h2i ⊢
          simpa using h2i
        · intro t1 ht; exact absurd ht (by simp)
        · simpa using h4f
      | true =>
        have hti : t = wrap64 (s.startNum + s.i) := h3h t hfs
        have hlen : t = wrap64 (b + STEP_SIZE * ((s.issuedFresh.length : Int) + 1)) := by
          rw [hti, hb]
          simp only [freshBit, hfs, STEP_SIZE, wrap64] at h2i ⊢
          push_cast at h2i ⊢
          omega
        refine ⟨hb, ?_, ?_, ?_⟩
        · simp only [freshBit, hfs, STEP_SIZE, wrap64] at h2i ⊢
          simp only [ite_true, List.length_append, List.length_cons, List.length_nil]
          push_cast at h2i ⊢
          omega
        · intro t1 ht; exact absurd ht (by simp)
        · simp only [ite_true, List.length_append, List.length_cons, List.length_nil]
          rw [show s.issuedFresh.length + (0 + 1) = s.issuedFresh.length + 1 by omega,
            freshList_succ, ← h4f, ← hlen]
  | workerTake w =>
    cases hw : s.ws[w]? with
    | none => simp [pstep, hw] at h
    | some x =>
      cases x <;> cases hts : s.tasks <;> simp [pstep, hw, hts] at h
      subst h; exact ⟨hb, h2i, h3h, h4f⟩
  | workerExit w =>
    cases hw : s.ws[w]? with
    | none => simp [pstep, hw] at h
    | some x =>
      cases x <;> simp [pstep, hw] at h
      obtain ⟨⟨hg1, hg2⟩, h⟩ := h
      subst h; exact ⟨hb, h2i, h3h, h4f⟩
  | workerDecideFail w =>
    cases hw : s.ws[w]? with
    | none => simp [pstep, hw] at h
    | some x =>
      cases x <;> simp [pstep, hw] at h
      subst h; exact ⟨hb, h2i, h3h, h4f⟩
  | workerDecideSucc w =>
    cases hw : s.ws[w]? with
    | none => simp [pstep, hw] at h
    | some x =>
      cases x <;> simp [pstep, hw] at h
      subst h; exact ⟨hb, h2i, h3h, h4f⟩
  | workerFailSend w =>
    cases hw : s.ws[w]? with
    | none => simp [pstep, hw] at h
    | some x =>
      cases x <;> simp [pstep, hw] at h
      obtain ⟨hg, h⟩ := h
      subst h; exact ⟨hb, h2i, h3h, h4f⟩
  | workerFailRelease w =>
    cases hw : s.ws[w]? with
    | none => simp [pstep, hw] at h
    | some x =>
      cases x <;> simp [pstep, hw] at h
      obtain ⟨hg, h⟩ := h
      subst h; exact ⟨hb, h2i, h3h, h4f⟩
  | workerSuccRelease w =>
    cases hw : s.ws[w]? with
    | none => simp [pstep, hw] at h
    | some x =>
      cases x <;> simp [pstep, hw] at h
      obtain ⟨hg, h⟩ := h
      subst h; exact ⟨hb, h2i, h3h, h4f⟩
  | workerEmitResult w =>
    cases hw : s.ws[w]? with
    | none => simp [pstep, hw] at h
    | some x =>
      cases x <;> simp [pstep, hw] at h
      subst h; exact ⟨hb, h2i, h3h, h4f⟩
  | sinkSkipPop =>
    cases hsk : s.skipped <;> simp [pstep, hsk] at h
    subst h; exact ⟨hb, h2i, h3h, h4f⟩

theorem freshList_getElem (b : Int) : ∀ (m n : Nat) (t : Int), (freshList b m)[n]? = some t →
    t = wrap64 (b + STEP_SIZE * ((n : Int) + 1)) := by
  intro m
  induction m with
  | zero => intro n t h; exact absurd h (by simp [freshList])
  | succ m ih =>
    intro n t h
    rw [freshList_succ, List.getElem?_append, freshList_length] at h
    by_cases hn : n < m
    · rw [if_pos hn] at h
      exact ih n t h
    · rw [if_neg hn] at h
      by_cases hnm : n = m
      · subst hnm
        simp only [Nat.sub_self, List.getElem?_cons_zero, Option.some.injEq] at h
        omega
      · rw [List.getElem?_eq_none (by simp; omega)] at h
        exact absurd h (by simp)

/-- Claim C5 (amended): the n-th fresh offset issued by the Task Source
(0-based) equals base + (n+1)*STEP_SIZE computed in wrapping int64
arithmetic — the feeder increments its counter by STEP_SIZE before
first use, so the first fresh offset is base + STEP_SIZE (not the base
itself), and near the top of the signed 64-bit range the offsets wrap
exactly as Go's int64 additions do. -/
theorem fresh_offsets_formula (b : Int) (tr : List Act) (s : St)
    (hrun : prun tr (initSt b) = some s) (n : Nat) (t : Int)
    (hget : s.issuedFresh[n]? = some t) : t = wrap64 (b + STEP_SIZE * ((n : Int) + 1)) := by
  have hinit : Inv5 b (initSt b) := by
    refine ⟨rfl, ?_, ?_, by simp [initSt, freshList]⟩
    · show (0 : Int) = wrap64 (STEP_SIZE * ((0 + 0 : Nat) : Int))
      decide
    · intro t1 ht
      simp [initSt] at ht
  have hinv : Inv5 b s := prun_inv (Inv5 b) (inv5_pstep b) tr (initSt b) s hrun hinit
  obtain ⟨hb, h2i, h3h, h4f⟩ := hinv
  rw [h4f] at hget
  exact freshList_getElem b s.issuedFresh.length n t hget

/-- Schedule: the feeder acquires a slot, picks its first fresh offset
and issues it. -/
def c5Trace : List Act := [.feederAcquire, .feederFresh, .feederIssue]

/-- Final state of c5Trace from base offset 0. -/
def c5Final : St := (prun c5Trace (initSt 0)).getD (initSt 0)

/-- Claim C5, counterexample: with base offset 0 the first fresh offset
issued is 100, not the base offset 0 that the claim predicts
(base + 0*STEP_SIZE for n = 0). -/
theorem c5_counterexample :
    prun c5Trace (initSt 0) = some c5Final ∧
    c5Final.issuedFresh = [100] ∧
    (100 : Int) ≠ 0 + STEP_SIZE * 0 := by
  refine ⟨rfl, rfl, by decide⟩

/-- Final state of c5Trace from the largest valid base offset, where
the first fresh offset wraps. -/
def c5WrapFinal : St := (prun c5Trace (initSt (2 ^ 63 - 1))).getD (initSt 0)

/-- Witness for fresh_offsets_formula on two concrete runs: base 0
(wrap-free, first fresh offset 100) and base 2^63-1 (the first fresh
offset wraps to -9223372036854775709, matching Go's int64 overflow). -/
theorem fresh_offsets_formula_witness :
    prun c5Trace (initSt 0) = some c5Final ∧ c5Final.issuedFresh[0]? = some 100 ∧
      (100 : Int) = wrap64 (0 + STEP_SIZE * ((0 : Nat) + 1)) ∧
      prun c5Trace (initSt (2 ^ 63 - 1)) = some c5WrapFinal ∧
      c5WrapFinal.issuedFresh[0]? = some (-9223372036854775709) ∧
      (-9223372036854775709 : Int) = wrap64 (2 ^ 63 - 1 + STEP_SIZE * ((0 : Nat) + 1)) :=
  ⟨rfl, rfl, fresh_offsets_formula 0 c5Trace c5Final rfl 0 100 rfl, rfl, rfl,
    fresh_offsets_formula (2 ^ 63 - 1) c5Trace c5WrapFinal rfl 0 (-9223372036854775709) rfl⟩

/-- Claim C2: in every reachable state of the pipeline, the number of
offsets issued by the Task Source whose admission slot has not yet been
released is at most WORKERS.  The model acquires one inflight token
before choosing any offset (fresh or re-delivered) and each worker
releases exactly one token per finished attempt, on both the success
and the failure path. -/
theorem outstanding_slots_bounded (b : Int) (tr : List Act) (s : St)
    (hrun : prun tr (initSt b) = some s) :
    issuedLen s ≤ s.releasedCount + WORKERS := by
  have hinit : Inv2 (initSt b) := by
    refine ⟨rfl, ?_, rfl⟩
    simp [initSt, WORKERS]
  have hinv : Inv2 s := prun_inv Inv2 inv2_pstep tr (initSt b) s hrun hinit
  obtain ⟨h1, h2, h3⟩ := hinv
  omega

/-- Schedule witnessing outstanding_slots_bounded concretely. -/
def c2Trace : List Act := [.feederAcquire, .feederFresh, .feederIssue, .workerTake 0]

/-- Final state of c2Trace from base offset 0. -/
def c2Final : St := (prun c2Trace (initSt 0)).getD (initSt 0)

/-- Witness for outstanding_slots_bounded on a concrete run. -/
theorem outstanding_slots_bounded_witness :
    prun c2Trace (initSt 0) = some c2Final ∧
      issuedLen c2Final ≤ c2Final.releasedCount + WORKERS :=
  ⟨rfl, outstanding_slots_bounded 0 c2Trace c2Final rfl⟩

/-- Claim C6 (amended): the feeder chooses a fresh offset only when it
observes the re-delivery buffer empty, and when it commits to the
re-delivery branch it receives the element at the head of the buffer at
receive time; the head observed at the check can be consumed by the
concurrent Skipped-file sink in between, so the issued offset need not
be the head seen at the check. -/
theorem retry_priority :
    (∀ s s1, pstep Act.feederFresh s = some s1 → s.skipped = []) ∧
    (∀ s s1, pstep Act.feederRecv s = some s1 →
      ∃ x rest, s.skipped = x :: rest ∧ s1.fs = FSt.hold x false ∧ s1.skipped = rest) := by
  constructor
  · intro s s1 h
    cases hfs : s.fs <;> cases hsk : s.skipped <;> simp [pstep, hfs, hsk] at h
    rfl
  · intro s s1 h
    cases hfs : s.fs <;> cases hsk : s.skipped <;> simp [pstep, hfs, hsk] at h
    case commitRecv.cons x rest =>
      subst h
      exact ⟨x, rest, rfl, rfl, rfl⟩

/-- Concrete pre-state enabling the fresh branch. -/
def c6WitPre : St := { initSt 0 with fs := FSt.acquired }

/-- Post-state of the fresh choice from c6WitPre. -/
def c6WitPost : St := (pstep Act.feederFresh c6WitPre).getD (initSt 0)

/-- Witness for retry_priority at a concrete step. -/
theorem retry_priority_witness :
    pstep Act.feederFresh c6WitPre = some c6WitPost ∧ c6WitPre.skipped = [] :=
  ⟨rfl, retry_priority.1 c6WitPre c6WitPost rfl⟩

/-- Schedule in which two failed offsets 100 and 200 sit in the skipped
buffer when the feeder checks it, and the Skipped-file sink consumes
the head 100 between the feeder's length check and its receive. -/
def c6Trace : List Act :=
  [.feederAcquire, .feederFresh, .feederIssue, .workerTake 0,
   .feederAcquire, .feederFresh, .feederIssue, .workerTake 1,
   .workerDecideFail 0, .workerFailSend 0, .workerFailRelease 0,
   .workerDecideFail 1, .workerFailSend 1, .workerFailRelease 1,
   .feederAcquire, .feederObserve, .sinkSkipPop, .feederRecv, .feederIssue]

/-- Final state of c6Trace from base offset 0. -/
def c6Final : St := (prun c6Trace (initSt 0)).getD (initSt 0)

/-- Claim C6, counterexample: the head observed at the feeder's
non-empty check was 100, yet the offset issued by that iteration is
200, because the Skipped-file sink consumed 100 first (and wrote it to
the file, so 100 is never re-delivered at all). -/
theorem c6_counterexample :
    prun c6Trace (initSt 0) = some c6Final ∧
    c6Final.checkIssue = [(100, 200)] ∧
    c6Final.fileSkipped = [100] ∧
    c6Final.issuedRedeliv = [200] ∧
    (200 : Int) ≠ 100 := by
  exact ⟨rfl, rfl, rfl, rfl, by decide⟩

/-- Schedule of a complete run: offset 100 is issued fresh, fails once,
is re-delivered by the feeder (winning the race against the sink),
succeeds on retry, and the pipeline shuts down cleanly. -/
def c1Trace : List Act :=
  [.feederAcquire, .feederFresh, .feederIssue, .workerTake 0, .workerDecideFail 0,
   .workerFailSend 0, .workerFailRelease 0, .feederAcquire, .feederObserve, .feederRecv,
   .feederIssue, .workerTake 0, .workerDecideSucc 0, .workerSuccRelease 0, .workerEmitResult 0,
   .setShutdown, .feederClose, .workerExit 0, .workerExit 1, .workerExit 2, .workerExit 3,
   .workerExit 4, .workerExit 5, .workerExit 6, .workerExit 7, .workerExit 8, .workerExit 9]

/-- Final state of c1Trace from base offset 0. -/
def c1Final : St := (prun c1Trace (initSt 0)).getD (initSt 0)

/-- Claim C1, refutation: a complete run (feeder closed, every worker
exited, skipped buffer drained) in which the batch offset 100 failed
once (failEmits = [100]) and was re-delivered (issuedRedeliv = [100]),
yet the skipped file is empty: the single skipped channel send reached
the feeder's retry receive, so the Skipped sink never durably recorded
the failure.  The claim demands both destinations for every failure. -/
theorem c1_failure_single_destination :
    prun c1Trace (initSt 0) = some c1Final ∧
    c1Final.failEmits = [100] ∧
    c1Final.issuedRedeliv = [100] ∧
    c1Final.fileSkipped = [] ∧
    c1Final.skipped = [] ∧
    c1Final.fs = FSt.closed ∧
    c1Final.ws = List.replicate WORKERS WSt.done := by
  exact ⟨rfl, rfl, rfl, rfl, rfl, rfl, rfl⟩

/-- Rate-limited input sequence: three consecutive 429 responses. -/
def c3Input : List Outcome := [.non200 429, .non200 429, .non200 429]

/-- Claim C3, counterexample: on three consecutive rate-limited
responses the code rerolls after the 2nd AND after the 3rd (the counter
is not reset on a reroll, only a success resets it), while the claim's
policy (reset to 0 at threshold 2) rerolls only after the 2nd. -/
theorem c3_counterexample :
    (runPolicy 0 c3Input).2 = [false, true, true] ∧
    (runClaimPolicy 0 c3Input).2 = [false, true, false] ∧
    ([false, true, true] : List Bool) ≠ [false, true, false] := by
  exact ⟨rfl, rfl, by decide⟩

/-- Claim C3 (amended): a rate-limited (non-200) response increments
the counter only when the counter is 0; with the counter already at 1
the Worker rerolls WITHOUT resetting the counter (only a success resets
it to 0); consequently two consecutive rate-limited responses followed
by a success still cause exactly one reroll, but every further
consecutive rate-limited response after the second also rerolls. -/
theorem c3_policy :
    (∀ c k, policyStep c (.non200 k) = if c = 0 then (c + 1, false) else (c, true)) ∧
    runPolicy 0 [.non200 429, .non200 429, .ok] = (0, [false, true, false]) ∧
    runPolicy 0 [.non200 429, .non200 429, .non200 429, .ok] = (0, [false, true, true, false]) := by
  refine ⟨?_, rfl, rfl⟩
  intro c k
  match c with
  | 0 => rfl
  | c + 1 => simp [policyStep]

/-- Claim C4, counterexample: an access-forbidden response is mapped by
DoRequest to the same non-200 sentinel as every other non-success
status, so a hard block arriving with the counter at 0 merely
increments the counter and keeps the same Identity — there is no
immediate reroll with a counter reset to 0, contrary to the claim. -/
theorem c4_counterexample :
    policyStep 0 (.non200 403) = (1, false) ∧
    ((1 : Nat), false) ≠ ((0 : Nat), true) := by
  exact ⟨rfl, by decide⟩

/-- Claim C4 (amended): the current iteration does not classify
access-forbidden separately; a 403 is handled like any non-200: the
first consecutive one increments the counter without a reroll, the
second-and-later ones reroll without resetting the counter.  The Worker
never exits because of a response: the worker-exit transition is
enabled only once the task stream is closed and drained. -/
theorem c4_policy :
    policyStep 0 (.non200 403) = (1, false) ∧
    policyStep 1 (.non200 403) = (1, true) ∧
    (∀ s s1 w, pstep (Act.workerExit w) s = some s1 →
      s.tasksClosed = true ∧ s.tasks = []) := by
  refine ⟨rfl, rfl, ?_⟩
  intro s s1 w h
  cases hw : s.ws[w]? with
  | none => simp [pstep, hw] at h
  | some x =>
    cases x <;> simp [pstep, hw] at h
    exact ⟨h.1.1, h.1.2⟩

/-- Concrete pre-state enabling a worker exit. -/
def c4WitPre : St := { initSt 0 with tasksClosed := true }

/-- Post-state of the worker-exit step from c4WitPre. -/
def c4WitPost : St := (pstep (Act.workerExit 0) c4WitPre).getD (initSt 0)

/-- Witness for c4_policy at a concrete worker-exit step. -/
theorem c4_policy_witness :
    pstep (Act.workerExit 0) c4WitPre = some c4WitPost ∧
      c4WitPre.tasksClosed = true ∧ c4WitPre.tasks = [] :=
  ⟨rfl, c4_policy.2.2 c4WitPre c4WitPost 0 rfl⟩

theorem resultsBody_false_cons :
    ∀ bs (b : String), resultsBody false (b :: bs) = "," ++ joinComma (b :: bs) := by
  intro bs
  induction bs with
  | nil => intro b; simp [resultsBody, joinComma]
  | cons b1 bs1 ih =>
    intro b
    show "," ++ b ++ resultsBody false (b1 :: bs1) = "," ++ joinComma (b :: b1 :: bs1)
    rw [ih b1]
    show "," ++ b ++ ("," ++ joinComma (b1 :: bs1)) = "," ++ (b ++ "," ++ joinComma (b1 :: bs1))
    rw [String.append_assoc, String.append_assoc]

theorem resultsBody_true_eq : ∀ bs, resultsBody true bs = joinComma bs := by
  intro bs
  cases bs with
  | nil => rfl
  | cons b bs1 =>
    cases bs1 with
    | nil => simp [resultsBody, joinComma]
    | cons b1 bs2 =>
      show "" ++ b ++ resultsBody false (b1 :: bs2) = joinComma (b :: b1 :: bs2)
      rw [resultsBody_false_cons bs2 b1]
      show "" ++ b ++ ("," ++ joinComma (b1 :: bs2)) = b ++ "," ++ joinComma (b1 :: bs2)
      rw [String.empty_append, String.append_assoc]

theorem exists_render_list : ∀ bodies : List String,
    (∀ b ∈ bodies, ∃ v : Json, render v = b) →
    ∃ vs : List Json, vs.map render = bodies := by
  intro bodies
  induction bodies with
  | nil => intro _; exact ⟨[], rfl⟩
  | cons b bs ih =>
    intro hall
    obtain ⟨v, hv⟩ := hall b (by simp)
    obtain ⟨vs, hvs⟩ := ih (fun b1 hb1 => hall b1 (by simp [hb1]))
    exact ⟨v :: vs, by simp [hv, hvs]⟩

/-- Claim C7: on a clean exit the Results file is exactly one opening
bracket, the received payloads in arrival order separated by commas
(the first unprefixed), and one closing bracket; when every received
payload is the serialization of a JSON value the file is the
serialization of a JSON array with one element per successful fetch,
and with zero successes it is the empty array. -/
theorem results_file_format (bodies : List String) :
    writeResultsToFile bodies = "[" ++ joinComma bodies ++ "]" ∧
    ((∀ b ∈ bodies, ∃ v : Json, render v = b) →
      ∃ vs : List Json, writeResultsToFile bodies = render (Json.jarr vs) ∧
        vs.length = bodies.length) ∧
    writeResultsToFile [] = render (Json.jarr []) := by
  refine ⟨?_, ?_, ?_⟩
  · show "[" ++ resultsBody true bodies ++ "]" = "[" ++ joinComma bodies ++ "]"
    rw [resultsBody_true_eq]
  · intro hall
    obtain ⟨vs, hvs⟩ := exists_render_list bodies hall
    refine ⟨vs, ?_, by rw [← hvs, List.length_map]⟩
    rw [render_arr, hvs]
    show "[" ++ resultsBody true bodies ++ "]" = "[" ++ joinComma bodies ++ "]"
    rw [resultsBody_true_eq]
  · rw [render_arr]
    rfl

/-- Witness for results_file_format at one payload that is a JSON
value. -/
theorem results_file_format_witness :
    writeResultsToFile ["null"] = "[null]" ∧
      ∃ vs : List Json, writeResultsToFile ["null"] = render (Json.jarr vs) ∧
        vs.length = (["null"] : List String).length := by
  have h := results_file_format ["null"]
  refine ⟨rfl, h.2.1 ?_⟩
  intro b hb
  rcases List.mem_singleton.mp hb with rfl
  exact ⟨Json.null, by simp [render]⟩

/-- Concatenation of a sequence of writes. -/
def sconcat : List String → String
  | [] => ""
  | op :: ops => op ++ sconcat ops

theorem sconcat_append : ∀ xs ys, sconcat (xs ++ ys) = sconcat xs ++ sconcat ys := by
  intro xs ys
  induction xs with
  | nil => simp [sconcat, String.empty_append]
  | cons op ops ih =>
    show op ++ sconcat (ops ++ ys) = op ++ sconcat ops ++ sconcat ys
    rw [ih, String.append_assoc]

theorem execOps_no_abort : ∀ ops outs content, (execOps ops outs content).aborted = false →
    (execOps ops outs content).content = content ++ sconcat ops := by
  intro ops
  induction ops with
  | nil =>
    intro outs content _
    show content = content ++ ""
    rw [String.append_empty]
  | cons op ops1 ih =>
    intro outs content hab
    show (execOps (op :: ops1) outs content).content = content ++ (op ++ sconcat ops1)
    rw [← String.append_assoc]
    cases outs with
    | nil =>
      simp only [execOps, takeOut] at hab ⊢
      exact ih [] (content ++ op) hab
    | cons o outs1 =>
      cases o with
      | true =>
        simp only [execOps, takeOut] at hab ⊢
        exact ih outs1 (content ++ op) hab
      | false =>
        simp only [execOps, takeOut] at hab
        exact absurd hab (by simp)

theorem sconcat_resultsOpsBody : ∀ bodies first,
    sconcat (resultsOpsBody first bodies) = resultsBody first bodies := by
  intro bodies
  induction bodies with
  | nil => intro first; rfl
  | cons b bs ih =>
    intro first
    cases first with
    | true =>
      show sconcat ([b] ++ resultsOpsBody false bs) = "" ++ b ++ resultsBody false bs
      rw [sconcat_append, ih false, String.empty_append]
      show b ++ "" ++ resultsBody false bs = b ++ resultsBody false bs
      rw [String.append_empty]
    | false =>
      show sconcat ([",", b] ++ resultsOpsBody false bs) = "," ++ b ++ resultsBody false bs
      rw [sconcat_append, ih false]
      show "," ++ (b ++ "") ++ resultsBody false bs = "," ++ b ++ resultsBody false bs
      rw [String.append_empty]

theorem sconcat_resultsOps (bodies : List String) :
    sconcat (resultsOps bodies) = writeResultsToFile bodies := by
  show sconcat ("[" :: resultsOpsBody true bodies ++ ["]"]) = "[" ++ resultsBody true bodies ++ "]"
  show "[" ++ sconcat (resultsOpsBody true bodies ++ ["]"]) = "[" ++ resultsBody true bodies ++ "]"
  rw [sconcat_append, sconcat_resultsOpsBody]
  show "[" ++ (resultsBody true bodies ++ ("]" ++ "")) = "[" ++ resultsBody true bodies ++ "]"
  rw [String.append_empty, String.append_assoc]

/-- Claim C9, counterexample: a failed record write in the Skipped sink
neither aborts the process nor leaves any trace — the record 42 that a
successful write would append is silently dropped, because
writeSkippedToFile discards the error returned by WriteString. -/
theorem c9_counterexample :
    writeSkippedToFile [42] [false] = ⟨false, ""⟩ ∧
    writeSkippedToFile [42] [true] = ⟨false, "42\n"⟩ ∧
    ("" : String) ≠ "42\n" := by
  exact ⟨rfl, rfl, by decide⟩

/-- Claim C9 (amended): the Results sink checks every write and a run
of it that does not abort has written the complete file content, but
the Skipped sink never aborts on a record write — a failing record
write is silently ignored. -/
theorem sink_error_handling :
    (∀ bodies outs, (writeResultsToFileChecked bodies outs).aborted = false →
      (writeResultsToFileChecked bodies outs).content = writeResultsToFile bodies) ∧
    (∀ ids outs, (writeSkippedToFile ids outs).aborted = false) := by
  constructor
  · intro bodies outs hab
    show (execOps (resultsOps bodies) outs "").content = writeResultsToFile bodies
    rw [execOps_no_abort (resultsOps bodies) outs "" hab, String.empty_append,
      sconcat_resultsOps]
  · intro ids outs
    rfl

/-- Witness for sink_error_handling on concrete runs. -/
theorem sink_error_handling_witness :
    (writeResultsToFileChecked ["x"] []).aborted = false ∧
      (writeResultsToFileChecked ["x"] []).content = writeResultsToFile ["x"] ∧
      (writeSkippedToFile [7] []).aborted = false :=
  ⟨rfl, sink_error_handling.1 ["x"] [] rfl, sink_error_handling.2 [7] []⟩

/-- Claim C10: creating or rerolling an Identity with an empty proxy
pool faults — SetRandomIdentity indexes proxies[rand.Intn(len(proxies))]
unconditionally and rand.Intn panics on bound 0, even though the
proxies flag is documented as optional; with a non-empty pool the draw
succeeds. -/
theorem identity_empty_proxies :
    SetRandomIdentity [] ["ua"] 0 0 = none ∧
    SetRandomIdentity ["p"] ["ua"] 0 0 = some ⟨"p", "ua"⟩ := by
  exact ⟨rfl, rfl⟩
